import Mathlib

/-!
Shallow embedding of the `bingo` repository's two core modules:

* `bingo/EA/VarOr.py` — the `VarOr` offspring-generation operator, which for
  each offspring slot chooses mutation, crossover or replication from one
  uniform random draw.
* `bingo/SymbolicRegression/AGraph/AGraph.py` — the `AGraph` acyclic-graph
  program representation with constant binding, liveness-based bookkeeping,
  evaluation error handling and structural distance.

Python objects become Lean structures; in-place mutation becomes explicit
state passing; numpy's global random source becomes an explicit stream of
rational draws threaded through the computation; fallible calls return
`Except`.
-/

/-! ## Random source

`np.random.rand()` and `np.random.randint(n)` both consume one draw from a
process-wide source.  We model the source as an infinite stream of rationals
(each draw standing for a uniform value in `[0,1)`) together with a cursor. -/

structure RNG where
  stream : ℕ → ℚ
  idx : ℕ

/-- One uniform draw in `[0,1)` (`np.random.rand()`). -/
def RNG.rand (r : RNG) : ℚ × RNG :=
  (r.stream r.idx, ⟨r.stream, r.idx + 1⟩)

/-- One integer draw in `[0, n)` (`np.random.randint(n)`), modelled as the
floor of a uniform draw scaled by `n`. -/
def RNG.randint (r : RNG) (n : ℕ) : ℕ × RNG :=
  ((⌊r.stream r.idx * n⌋.toNat % n), ⟨r.stream, r.idx + 1⟩)

/-- Advance the cursor by `k` draws. -/
def RNG.advance (r : RNG) (k : ℕ) : RNG :=
  ⟨r.stream, r.idx + k⟩

/-! ## Chromosomes

`VarOr` manipulates population members only through `.copy()`, `.fit_set`,
and the injected crossover/mutation callables, so a chromosome is modelled
as an opaque payload plus the fitness-set flag. -/

structure Chromosome where
  payload : ℕ
  fit_set : Bool
deriving DecidableEq

instance : Inhabited Chromosome := ⟨⟨0, false⟩⟩

/-- `Chromosome.copy()`: a deep copy sharing no mutable state with the
original; with value semantics this is the identity. -/
def Chromosome.copy (c : Chromosome) : Chromosome := c

/-! ## VarOr -/

structure VarOr where
  crossover : Chromosome → Chromosome → Chromosome × Chromosome
  mutation : Chromosome → Chromosome
  crossover_probability : ℚ
  mutation_probability : ℚ
  replication_probability : ℚ

/-- Validation-error message for `crossover_probability` outside `[0,1]`. -/
def crossoverProbErrMsg : String :=
  "crossover_probability must be >= 0 and <= 1"

/-- Validation-error message for `mutation_probability` outside `[0,1]`. -/
def mutationProbErrMsg : String :=
  "mutation_probability must be >= 0 and <= 1"

/-- Error message of `VarOr.__init__` when the probabilities sum above 1. -/
def sumProbErrMsg : String :=
  "The sum of crossover and mutation probabilities must be less than or equal to 1.0"

/-- Modelled from the spec: the `argument_validation` decorator
(`bingo/Util/ArgumentValidation.py`, not part of this source snapshot)
checks each annotated argument against its bounds before the function body
runs; for `VarOr.__init__` both probabilities are constrained to `[0,1]`. -/
def probabilityInRange (p : ℚ) : Bool :=
  0 ≤ p && p ≤ 1

/-- `VarOr.__init__`: validates both probabilities to `[0,1]` (decorator),
then rejects `pc + pm > 1`, else stores the probabilities and the derived
replication probability `1 - pc - pm`. -/
def VarOr.init (crossover : Chromosome → Chromosome → Chromosome × Chromosome)
    (mutation : Chromosome → Chromosome)
    (crossover_probability mutation_probability : ℚ) : Except String VarOr :=
  if probabilityInRange crossover_probability then
    if probabilityInRange mutation_probability then
      if crossover_probability + mutation_probability > 1 then
        .error sumProbErrMsg
      else .ok
        { crossover := crossover
          mutation := mutation
          crossover_probability := crossover_probability
          mutation_probability := mutation_probability
          replication_probability :=
            1 - crossover_probability - mutation_probability }
    else .error mutationProbErrMsg
  else .error crossoverProbErrMsg

/-- Is an `Except` result a success? -/
def exceptOk {ε α : Type} : Except ε α → Bool
  | .ok _ => true
  | .error _ => false

/-- `VarOr._get_random_parent`: pick a uniform random index into the
population and return a copy of that member. -/
def VarOr.getRandomParent (population : List Chromosome) (rng : RNG) :
    Chromosome × RNG :=
  let (k, rng') := rng.randint population.length
  ((population.getD k default).copy, rng')

/-- `VarOr._append_new_individual_to_offspring`: clear the fitness-set flag
and append. -/
def VarOr.appendNewIndividualToOffspring (child : Chromosome)
    (offspring : List Chromosome) : List Chromosome :=
  offspring ++ [{ child with fit_set := false }]

/-- Which of the three variation paths a slot takes. -/
inductive VarAction where
  | mutation
  | crossover
  | replication
deriving DecidableEq

/-- The branch structure of `VarOr.__call__`'s loop body: the mutation
comparison `choice <= pm` is made first, then `choice <= pm + pc`, else
replication. -/
def VarOr.chooseAction (v : VarOr) (choice : ℚ) : VarAction :=
  if choice ≤ v.mutation_probability then .mutation
  else if choice ≤ v.mutation_probability + v.crossover_probability then .crossover
  else .replication

/-- Number of further draws (beyond the slot's choice draw) each path
consumes for parent selection. -/
def VarAction.draws : VarAction → ℕ
  | .mutation => 1
  | .crossover => 2
  | .replication => 1

/-- `VarOr._do_mutation`: one random parent, mutate, append, flag slot `i`
in `mutation_offspring`. -/
def VarOr.doMutation (v : VarOr) (population : List Chromosome)
    (offspring : List Chromosome) (mo : List Bool) (i : ℕ) (rng : RNG) :
    List Chromosome × List Bool × RNG :=
  let (parent, rng') := VarOr.getRandomParent population rng
  let mutant := v.mutation parent
  (VarOr.appendNewIndividualToOffspring mutant offspring, mo.set i true, rng')

/-- `VarOr._do_crossover`: two random parents, cross them, keep the first
child, append, flag slot `i` in `crossover_offspring`. -/
def VarOr.doCrossover (v : VarOr) (population : List Chromosome)
    (offspring : List Chromosome) (co : List Bool) (i : ℕ) (rng : RNG) :
    List Chromosome × List Bool × RNG :=
  let (parent_1, rng1) := VarOr.getRandomParent population rng
  let (parent_2, rng2) := VarOr.getRandomParent population rng1
  let child_1 := (v.crossover parent_1 parent_2).1
  (VarOr.appendNewIndividualToOffspring child_1 offspring, co.set i true, rng2)

/-- `VarOr._do_replication`: one random parent, append unchanged. -/
def VarOr.doReplication (population : List Chromosome)
    (offspring : List Chromosome) (rng : RNG) : List Chromosome × RNG :=
  let (child, rng') := VarOr.getRandomParent population rng
  (VarOr.appendNewIndividualToOffspring child offspring, rng')

/-- One iteration of the loop in `VarOr.__call__`: draw `choice`, then
dispatch on the comparisons of lines 80–88 of `VarOr.py`. -/
def VarOr.callStep (v : VarOr) (population : List Chromosome) (i : ℕ)
    (offspring : List Chromosome) (co mo : List Bool) (rng : RNG) :
    List Chromosome × List Bool × List Bool × RNG :=
  let (choice, rng1) := rng.rand
  match v.chooseAction choice with
  | .mutation =>
      let (off', mo', rng') := v.doMutation population offspring mo i rng1
      (off', co, mo', rng')
  | .crossover =>
      let (off', co', rng') := v.doCrossover population offspring co i rng1
      (off', co', mo, rng')
  | .replication =>
      let (off', rng') := VarOr.doReplication population offspring rng1
      (off', co, mo, rng')

/-- The loop `for i in range(number_offspring)` of `VarOr.__call__`,
with `m` slots remaining and `i` the current slot index. -/
def VarOr.callFrom (v : VarOr) (population : List Chromosome) :
    ℕ → ℕ → List Chromosome → List Bool → List Bool → RNG →
    List Chromosome × List Bool × List Bool × RNG
  | 0, _, offspring, co, mo, rng => (offspring, co, mo, rng)
  | m + 1, i, offspring, co, mo, rng =>
      let (off', co', mo', rng') := v.callStep population i offspring co mo rng
      v.callFrom population m (i + 1) off' co' mo' rng'

/-- `VarOr.__call__`: zero `crossover_offspring` and `mutation_offspring`
arrays of length `number_offspring`, run the per-slot loop, and return the
offspring list together with the two flag arrays (observable state). -/
def VarOr.call (v : VarOr) (population : List Chromosome)
    (number_offspring : ℕ) (rng : RNG) :
    List Chromosome × List Bool × List Bool × RNG :=
  v.callFrom population number_offspring 0 []
    (List.replicate number_offspring false)
    (List.replicate number_offspring false) rng

/-! Trace helpers: the cursor position of the choice draw of each slot, and
the action the draw selects.  Slot `i+1`'s choice draw sits `1 + draws`
positions after slot `i`'s, where `draws` is the number of parent-selection
draws slot `i`'s path consumes. -/

/-- Stream position of the choice draw of slot `i`, starting from `rng`. -/
def VarOr.choiceIdx (v : VarOr) (rng : RNG) : ℕ → ℕ
  | 0 => rng.idx
  | i + 1 =>
      v.choiceIdx rng i + 1 +
        (v.chooseAction (rng.stream (v.choiceIdx rng i))).draws

/-- The uniform choice draw of slot `i`. -/
def VarOr.choiceAt (v : VarOr) (rng : RNG) (i : ℕ) : ℚ :=
  rng.stream (v.choiceIdx rng i)

/-- The variation path slot `i` takes. -/
def VarOr.actionAt (v : VarOr) (rng : RNG) (i : ℕ) : VarAction :=
  v.chooseAction (v.choiceAt rng i)

/-! ## AGraph -/

/-- One row of the Nx3 command array: `(node, param1, param2)`. -/
structure Command where
  node : ℤ
  p1 : ℤ
  p2 : ℤ
deriving DecidableEq

/-- Default command used when indexing out of bounds. -/
def cmdDefault : Command := ⟨0, 0, 0⟩

/-- `IS_ARITY_2_MAP` of `AGraph.py`: nodes 2,3,4,5,10 have arity 2. -/
def IS_ARITY_2_MAP (node : ℤ) : Bool :=
  node == 2 || node == 3 || node == 4 || node == 5 || node == 10

/-- `IS_TERMINAL_MAP` of `AGraph.py`: nodes 0 and 1 are terminals. -/
def IS_TERMINAL_MAP (node : ℤ) : Bool :=
  node == 0 || node == 1

/-- One step of the backward liveness pass: if command `i` is marked
utilized and is an operator, mark the commands its parameters reference
(`param1`; also `param2` when arity 2). -/
def markUtilized (cmds : List Command) (util : List Bool) (i : ℕ) : List Bool :=
  if util.getD i false then
    let c := cmds.getD i cmdDefault
    if IS_TERMINAL_MAP c.node then util
    else
      let util1 := util.set c.p1.toNat true
      if IS_ARITY_2_MAP c.node then util1.set c.p2.toNat true else util1
  else util

/-- Modelled from the spec: the execution backend's liveness analysis
(`Backend.get_utilized_commands`, delegated to by
`AGraph.get_utilized_commands`; the backend module is not part of this
source snapshot).  `utilized[i]` is true iff command `i` is the final
command or is referenced, directly or transitively, through the parameter
indices of a utilized operator command with higher index; computed by one
backward pass. -/
def get_utilized_commands (cmds : List Command) : List Bool :=
  if cmds.length = 0 then []
  else
    (List.range cmds.length).reverse.foldl (markUtilized cmds)
      ((List.replicate cmds.length false).set (cmds.length - 1) true)

/-- An `AGraph`: the command array, the bound constants, and the fitness
state inherited from the chromosome base class (`_fitness`, `fit_set`). -/
structure AGraph where
  command_array : List Command
  constants : List ℚ
  fitness : Option ℚ
  fit_set : Bool
deriving DecidableEq

/-- The `command_array` property setter: stores the new array and resets
fitness (`_fitness = None`, `fit_set = False`). -/
def AGraph.set_command_array (g : AGraph) (cmds : List Command) : AGraph :=
  { g with command_array := cmds, fitness := none, fit_set := false }

/-- `AGraph.notify_command_array_modification`: resets fitness after an
in-place edit of the command array. -/
def AGraph.notify_command_array_modification (g : AGraph) : AGraph :=
  { g with fitness := none, fit_set := false }

/-- `AGraph.set_local_optimization_params`: replace the constant list
wholesale. -/
def AGraph.set_local_optimization_params (g : AGraph) (params : List ℚ) :
    AGraph :=
  { g with constants := params }

/-- `AGraph.needs_local_optimization`: some utilized command is a
constant-load (`node == 1`) whose `param1` is `-1` or at least the number
of stored constants. -/
def AGraph.needs_local_optimization (g : AGraph) : Bool :=
  ((get_utilized_commands g.command_array).zip g.command_array).any fun p =>
    p.1 && p.2.node == 1 &&
      (p.2.p1 == -1 || decide ((g.constants.length : ℤ) ≤ p.2.p1))

/-- The loop of `AGraph.get_number_local_optimization_params`: walk the
utilized mask and the command array together; every utilized constant-load
command is rewritten to `(1, const_num, const_num)` and the counter
incremented. -/
def renumberConsts : List Bool → List Command → ℕ → List Command × ℕ
  | _, [], const_num => ([], const_num)
  | [], cmds, const_num => (cmds, const_num)
  | u :: us, c :: cs, const_num =>
      if u && c.node == 1 then
        let (rest, k') := renumberConsts us cs (const_num + 1)
        ((⟨1, (const_num : ℤ), (const_num : ℤ)⟩ : Command) :: rest, k')
      else
        let (rest, k') := renumberConsts us cs const_num
        (c :: rest, k')

/-- `AGraph.get_number_local_optimization_params`: renumber the utilized
constant-loads in index order starting from 0 (an in-place edit of the
command array that does not touch the fitness state) and return the count
together with the updated graph. -/
def AGraph.get_number_local_optimization_params (g : AGraph) : ℕ × AGraph :=
  let util := get_utilized_commands g.command_array
  let (cmds', const_num) := renumberConsts util g.command_array 0
  (const_num, { g with command_array := cmds' })

/-- Number of utilized constant-load commands (spec-side count used to
state the contract of `get_number_local_optimization_params`). -/
def numUtilConstLoads : List Bool → List Command → ℕ
  | u :: us, c :: cs =>
      (if u && c.node == 1 then 1 else 0) + numUtilConstLoads us cs
  | _, _ => 0

/-- Rank of position `i` among utilized constant-loads in index order:
how many utilized constant-loads sit strictly before `i` (spec-side). -/
def constRank : List Bool → List Command → ℕ → ℕ
  | _, _, 0 => 0
  | [], _, _ + 1 => 0
  | _ :: _, [], _ + 1 => 0
  | u :: us, c :: cs, i + 1 =>
      (if u && c.node == 1 then 1 else 0) + constRank us cs i

/-! ### Rendering (`__str__`, stack form) -/

/-- `STACK_PRINT_MAP` of `AGraph.py` together with `.format(param1,
param2)`: the per-node format template applied to the two parameters. -/
def STACK_PRINT_MAP (node p1 p2 : ℤ) : String :=
  if node == 2 then "(" ++ toString p1 ++ ") + (" ++ toString p2 ++ ")"
  else if node == 3 then "(" ++ toString p1 ++ ") - (" ++ toString p2 ++ ")"
  else if node == 4 then "(" ++ toString p1 ++ ") * (" ++ toString p2 ++ ")"
  else if node == 5 then "(" ++ toString p1 ++ ") / (" ++ toString p2 ++ ") "
  else if node == 6 then "sin (" ++ toString p1 ++ ")"
  else if node == 7 then "cos (" ++ toString p1 ++ ")"
  else if node == 8 then "exp (" ++ toString p1 ++ ")"
  else if node == 9 then "log (" ++ toString p1 ++ ")"
  else if node == 10 then "(" ++ toString p1 ++ ") ^ (" ++ toString p2 ++ ")"
  else if node == 11 then "abs (" ++ toString p1 ++ ")"
  else if node == 12 then "sqrt (" ++ toString p1 ++ ")"
  else ""

/-- `AGraph._get_stack_element_string`: one rendered line of the stack. -/
def AGraph.getStackElementString (g : AGraph) (command_index : ℕ) : String :=
  let c := g.command_array.getD command_index cmdDefault
  let body :=
    if c.node == 0 then "X_" ++ toString c.p1
    else if c.node == 1 then
      if c.p1 == -1 || decide ((g.constants.length : ℤ) ≤ c.p1) then "C"
      else "C_" ++ toString c.p1 ++ " = " ++
        toString (g.constants.getD c.p1.toNat 0)
    else STACK_PRINT_MAP c.node c.p1 c.p2
  "(" ++ toString command_index ++ ") <= " ++ body ++ "\n"

/-- `AGraph._get_stack_string`: concatenate the lines of the shown rows
(all rows, or only the utilized ones when `short`). -/
def AGraph.getStackString (g : AGraph) (short : Bool) : String :=
  let rows_to_show :=
    if short then get_utilized_commands g.command_array
    else List.replicate g.command_array.length true
  (List.range g.command_array.length).foldl
    (fun acc i =>
      if rows_to_show.getD i false then acc ++ g.getStackElementString i
      else acc) ""

/-- `AGraph.__str__`: full stack form followed by the utilized-only form. -/
def AGraph.str (g : AGraph) : String :=
  "---full stack---\n" ++ g.getStackString false ++
    "---small stack---\n" ++ g.getStackString true

/-! ### Evaluation and error handling -/

/-- The single generic failure signal raised by `_raise_runtime_error`
(`raise RuntimeError`): it carries no detail of the underlying error. -/
inductive EvalRuntimeError where
  | runtimeError
deriving DecidableEq

/-- The execution backend consumed (not defined) by `AGraph`; a failing
call is an `Except.error` carrying the backend's exception text. -/
structure ExecBackend where
  simplify_and_evaluate :
    List Command → List (List ℚ) → List ℚ → Except String (List ℚ)
  simplify_and_evaluate_with_derivative :
    List Command → List (List ℚ) → List ℚ → Bool →
      Except String (List ℚ × List (List ℚ))

/-- `AGraph._raise_runtime_error`: log the rendered program and the caught
exception, then raise a bare `RuntimeError`. -/
def AGraph.raiseRuntimeError (g : AGraph) (ex : String) :
    List String × EvalRuntimeError :=
  ([g.str, ex], .runtimeError)

/-- `AGraph.evaluate_equation_at`: delegate to the backend; on failure log
`"Error in stack evaluation"` plus the rendered program and the exception,
and raise the generic runtime error.  Returns the log alongside the
outcome. -/
def AGraph.evaluate_equation_at (g : AGraph) (backend : ExecBackend)
    (x : List (List ℚ)) : List String × Except EvalRuntimeError (List ℚ) :=
  match backend.simplify_and_evaluate g.command_array x g.constants with
  | .ok f_of_x => ([], .ok f_of_x)
  | .error ex =>
      let (log, err) := g.raiseRuntimeError ex
      ("Error in stack evaluation" :: log, .error err)

/-- `AGraph.evaluate_equation_with_x_gradient_at`: derivative mode with
respect to the inputs (flag `True`). -/
def AGraph.evaluate_equation_with_x_gradient_at (g : AGraph)
    (backend : ExecBackend) (x : List (List ℚ)) :
    List String × Except EvalRuntimeError (List ℚ × List (List ℚ)) :=
  match backend.simplify_and_evaluate_with_derivative g.command_array x
      g.constants true with
  | .ok r => ([], .ok r)
  | .error ex =>
      let (log, err) := g.raiseRuntimeError ex
      ("Error in stack evaluation/deriv" :: log, .error err)

/-- `AGraph.evaluate_equation_with_local_opt_gradient_at`: derivative mode
with respect to the constants (flag `False`). -/
def AGraph.evaluate_equation_with_local_opt_gradient_at (g : AGraph)
    (backend : ExecBackend) (x : List (List ℚ)) :
    List String × Except EvalRuntimeError (List ℚ × List (List ℚ)) :=
  match backend.simplify_and_evaluate_with_derivative g.command_array x
      g.constants false with
  | .ok r => ([], .ok r)
  | .error ex =>
      let (log, err) := g.raiseRuntimeError ex
      ("Error in stack evaluation/const-deriv" :: log, .error err)

/-! ### Structural distance -/

/-- `AGraph.distance`: `np.sum(self.command_array != other.command_array)`,
the element-wise inequality count over the two Nx3 arrays. -/
def AGraph.distance (g chromosome : AGraph) : ℕ :=
  ((g.command_array.zip chromosome.command_array).map fun p =>
    (if p.1.node = p.2.node then 0 else 1) +
    (if p.1.p1 = p.2.p1 then 0 else 1) +
    (if p.1.p2 = p.2.p2 then 0 else 1)).sum

/-- Spec-side count of differing element positions between two equal-shape
command arrays, one term per row index. -/
def diffCount (cs1 cs2 : List Command) : ℕ :=
  ∑ i ∈ Finset.range cs1.length,
    ((if (cs1.getD i cmdDefault).node = (cs2.getD i cmdDefault).node
        then 0 else 1) +
     (if (cs1.getD i cmdDefault).p1 = (cs2.getD i cmdDefault).p1
        then 0 else 1) +
     (if (cs1.getD i cmdDefault).p2 = (cs2.getD i cmdDefault).p2
        then 0 else 1))

/-! ## Concrete instances used in witness theorems -/

/-- A concrete crossover operator for witnesses. -/
def witnessCrossover : Chromosome → Chromosome → Chromosome × Chromosome :=
  fun a b => (⟨a.payload + b.payload, true⟩, b)

/-- A concrete mutation operator for witnesses. -/
def witnessMutation : Chromosome → Chromosome :=
  fun c => ⟨c.payload + 100, true⟩

/-- A concrete `VarOr` instance with `pc = pm = 1/4`. -/
def witnessVarOr : VarOr :=
  ⟨witnessCrossover, witnessMutation, 1/4, 1/4, 1/2⟩

/-- A concrete draw stream cycling through `1/10, 1/2, 9/10`. -/
def witnessRng : RNG :=
  ⟨fun k => if k % 3 = 0 then 1/10 else if k % 3 = 1 then 1/2 else 9/10, 0⟩

/-- A concrete two-member population whose members have fitness set. -/
def witnessPop : List Chromosome := [⟨7, true⟩, ⟨8, true⟩]

/-- A concrete `AGraph`: `c? ; x0 ; c? ; add(1,2)` with an unused first
row and no bound constants. -/
def witnessAGraph : AGraph :=
  ⟨[⟨1, -1, -1⟩, ⟨0, 0, 0⟩, ⟨1, 5, 5⟩, ⟨2, 1, 2⟩], [], none, false⟩

/-- A concrete `AGraph` equal to `witnessAGraph` except in row 0's node. -/
def witnessAGraphB : AGraph :=
  ⟨[⟨0, -1, -1⟩, ⟨0, 0, 0⟩, ⟨1, 5, 5⟩, ⟨2, 1, 2⟩], [], none, false⟩

/-- A backend whose every call fails. -/
def witnessBackendFail : ExecBackend :=
  ⟨fun _ _ _ => .error "boom", fun _ _ _ _ => .error "boom"⟩

/-! ## Helper lemmas: lists -/

theorem getD_set_ne {α : Type} (l : List α) (i j : ℕ) (a d : α) (h : i ≠ j) :
    (l.set i a).getD j d = l.getD j d := by
  simp [List.getD_eq_getElem?_getD, List.getElem?_set_ne h]

theorem getD_set_self {α : Type} (l : List α) (i : ℕ) (a d : α)
    (h : i < l.length) : (l.set i a).getD i d = a := by
  simp [List.getD_eq_getElem?_getD, List.getElem?_set_self, h]

theorem getD_replicate {α : Type} (n j : ℕ) (a : α) :
    (List.replicate n a).getD j a = a := by
  rcases lt_or_ge j n with h | h
  · simp [List.getD_eq_getElem?_getD, List.getElem?_replicate, h]
  · simp [List.getD_eq_getElem?_getD, List.getElem?_eq_none, h]

/-! ## Helper lemmas: VarOr -/

theorem chooseAction_mutation_iff (v : VarOr) (u : ℚ) :
    v.chooseAction u = .mutation ↔ u ≤ v.mutation_probability := by
  unfold VarOr.chooseAction
  split_ifs with h1 h2 <;> simp_all

theorem chooseAction_crossover_iff (v : VarOr) (u : ℚ) :
    v.chooseAction u = .crossover ↔
      v.mutation_probability < u ∧
        u ≤ v.mutation_probability + v.crossover_probability := by
  unfold VarOr.chooseAction
  split_ifs with h1 h2
  · simp only [false_iff]
    rintro ⟨hlt, _⟩
    exact absurd h1 (not_le.mpr hlt)
  · simp only [true_iff]
    exact ⟨not_le.mp h1, h2⟩
  · simp only [false_iff]
    rintro ⟨_, hle⟩
    exact h2 hle

theorem chooseAction_replication_iff (v : VarOr) (u : ℚ) :
    v.chooseAction u = .replication ↔
      ¬ u ≤ v.mutation_probability ∧
        ¬ u ≤ v.mutation_probability + v.crossover_probability := by
  unfold VarOr.chooseAction
  split_ifs with h1 h2
  · simp only [false_iff, not_and]
    intro hc
    exact absurd h1 hc
  · simp only [false_iff, not_and]
    intro _ hc
    exact hc h2
  · simp only [true_iff]
    exact ⟨h1, h2⟩

theorem callStep_mutation (v : VarOr) (pop : List Chromosome) (i : ℕ)
    (off : List Chromosome) (co mo : List Bool) (rng : RNG)
    (h : v.chooseAction (rng.stream rng.idx) = .mutation) :
    v.callStep pop i off co mo rng =
      (VarOr.appendNewIndividualToOffspring
        (v.mutation (VarOr.getRandomParent pop (rng.advance 1)).1) off,
       co, mo.set i true, rng.advance 2) := by
  simp [VarOr.callStep, RNG.rand, h, VarOr.doMutation, VarOr.getRandomParent,
    RNG.randint, RNG.advance]

theorem callStep_crossover (v : VarOr) (pop : List Chromosome) (i : ℕ)
    (off : List Chromosome) (co mo : List Bool) (rng : RNG)
    (h : v.chooseAction (rng.stream rng.idx) = .crossover) :
    v.callStep pop i off co mo rng =
      (VarOr.appendNewIndividualToOffspring
        ((v.crossover (VarOr.getRandomParent pop (rng.advance 1)).1
          (VarOr.getRandomParent pop (rng.advance 2)).1).1) off,
       co.set i true, mo, rng.advance 3) := by
  simp [VarOr.callStep, RNG.rand, h, VarOr.doCrossover, VarOr.getRandomParent,
    RNG.randint, RNG.advance]

theorem callStep_replication (v : VarOr) (pop : List Chromosome) (i : ℕ)
    (off : List Chromosome) (co mo : List Bool) (rng : RNG)
    (h : v.chooseAction (rng.stream rng.idx) = .replication) :
    v.callStep pop i off co mo rng =
      (VarOr.appendNewIndividualToOffspring
        (VarOr.getRandomParent pop (rng.advance 1)).1 off,
       co, mo, rng.advance 2) := by
  simp [VarOr.callStep, RNG.rand, h, VarOr.doReplication, VarOr.getRandomParent,
    RNG.randint, RNG.advance]

theorem choiceIdx_advance (v : VarOr) (rng : RNG) (m : ℕ) :
    v.choiceIdx rng (m + 1) =
      v.choiceIdx
        (rng.advance (1 + (v.chooseAction (rng.stream rng.idx)).draws)) m := by
  induction m with
  | zero =>
      simp only [VarOr.choiceIdx, RNG.advance]
      omega
  | succ m ih =>
      rw [VarOr.choiceIdx, ih, VarOr.choiceIdx]
      rfl

theorem actionAt_advance (v : VarOr) (rng : RNG) (m : ℕ) :
    v.actionAt rng (m + 1) =
      v.actionAt
        (rng.advance (1 + (v.chooseAction (rng.stream rng.idx)).draws)) m := by
  simp only [VarOr.actionAt, VarOr.choiceAt, choiceIdx_advance, RNG.advance]

theorem actionAt_zero (v : VarOr) (rng : RNG) :
    v.actionAt rng 0 = v.chooseAction (rng.stream rng.idx) := rfl

theorem callStep_cases (v : VarOr) (pop : List Chromosome) (i : ℕ)
    (off : List Chromosome) (co mo : List Bool) (rng : RNG) :
    ∃ c : Chromosome,
      v.callStep pop i off co mo rng =
        (off ++ [{ c with fit_set := false }],
         if v.actionAt rng 0 = .crossover then co.set i true else co,
         if v.actionAt rng 0 = .mutation then mo.set i true else mo,
         rng.advance (1 + (v.actionAt rng 0).draws)) := by
  rcases h : v.chooseAction (rng.stream rng.idx) with _ | _ | _
  · refine ⟨v.mutation (VarOr.getRandomParent pop (rng.advance 1)).1, ?_⟩
    rw [callStep_mutation v pop i off co mo rng h]
    simp [VarOr.appendNewIndividualToOffspring, actionAt_zero, h,
      VarAction.draws]
  · refine ⟨(v.crossover (VarOr.getRandomParent pop (rng.advance 1)).1
      (VarOr.getRandomParent pop (rng.advance 2)).1).1, ?_⟩
    rw [callStep_crossover v pop i off co mo rng h]
    simp [VarOr.appendNewIndividualToOffspring, actionAt_zero, h,
      VarAction.draws]
  · refine ⟨(VarOr.getRandomParent pop (rng.advance 1)).1, ?_⟩
    rw [callStep_replication v pop i off co mo rng h]
    simp [VarOr.appendNewIndividualToOffspring, actionAt_zero, h,
      VarAction.draws]


theorem callFrom_succ (v : VarOr) (pop : List Chromosome) (m i : ℕ)
    (off : List Chromosome) (co mo : List Bool) (rng : RNG) :
    v.callFrom pop (m + 1) i off co mo rng =
      v.callFrom pop m (i + 1)
        (v.callStep pop i off co mo rng).1
        (v.callStep pop i off co mo rng).2.1
        (v.callStep pop i off co mo rng).2.2.1
        (v.callStep pop i off co mo rng).2.2.2 := by
  rw [VarOr.callFrom]

theorem callFrom_off_length (v : VarOr) (pop : List Chromosome) :
    ∀ (m i : ℕ) (off : List Chromosome) (co mo : List Bool) (rng : RNG),
      ((v.callFrom pop m i off co mo rng).1).length = off.length + m := by
  intro m
  induction m with
  | zero => intro i off co mo rng; rfl
  | succ m ih =>
      intro i off co mo rng
      obtain ⟨c, hstep⟩ := callStep_cases v pop i off co mo rng
      rw [callFrom_succ, hstep]
      dsimp only
      rw [ih, List.length_append, List.length_singleton]
      omega

theorem callFrom_flag_lengths (v : VarOr) (pop : List Chromosome) :
    ∀ (m i : ℕ) (off : List Chromosome) (co mo : List Bool) (rng : RNG),
      ((v.callFrom pop m i off co mo rng).2.1).length = co.length ∧
      ((v.callFrom pop m i off co mo rng).2.2.1).length = mo.length := by
  intro m
  induction m with
  | zero => intro i off co mo rng; exact ⟨rfl, rfl⟩
  | succ m ih =>
      intro i off co mo rng
      obtain ⟨c, hstep⟩ := callStep_cases v pop i off co mo rng
      rw [callFrom_succ, hstep]
      dsimp only
      obtain ⟨h1, h2⟩ := ih (i + 1) (off ++ [{ c with fit_set := false }])
        (if v.actionAt rng 0 = VarAction.crossover then co.set i true else co)
        (if v.actionAt rng 0 = VarAction.mutation then mo.set i true else mo)
        (rng.advance (1 + (v.actionAt rng 0).draws))
      rw [h1, h2]
      constructor
      · split_ifs with h
        · exact List.length_set ..
        · rfl
      · split_ifs with h
        · exact List.length_set ..
        · rfl

theorem callFrom_fit (v : VarOr) (pop : List Chromosome) :
    ∀ (m i : ℕ) (off : List Chromosome) (co mo : List Bool) (rng : RNG)
      (c : Chromosome), c ∈ (v.callFrom pop m i off co mo rng).1 →
        c ∈ off ∨ c.fit_set = false := by
  intro m
  induction m with
  | zero => intro i off co mo rng c hc; exact .inl hc
  | succ m ih =>
      intro i off co mo rng c hc
      obtain ⟨c', hstep⟩ := callStep_cases v pop i off co mo rng
      rw [callFrom_succ, hstep] at hc
      dsimp only at hc
      rcases ih (i + 1) (off ++ [{ c' with fit_set := false }])
        (if v.actionAt rng 0 = VarAction.crossover then co.set i true else co)
        (if v.actionAt rng 0 = VarAction.mutation then mo.set i true else mo)
        (rng.advance (1 + (v.actionAt rng 0).draws)) c hc with h | h
      · rcases List.mem_append.mp h with h | h
        · exact .inl h
        · right
          rw [List.mem_singleton.mp h]
      · exact .inr h

theorem callFrom_preserve (v : VarOr) (pop : List Chromosome) :
    ∀ (m i : ℕ) (off : List Chromosome) (co mo : List Bool) (rng : RNG)
      (j : ℕ), j < i →
      ((v.callFrom pop m i off co mo rng).2.1.getD j false = co.getD j false ∧
       (v.callFrom pop m i off co mo rng).2.2.1.getD j false
         = mo.getD j false) := by
  intro m
  induction m with
  | zero => intro i off co mo rng j _; exact ⟨rfl, rfl⟩
  | succ m ih =>
      intro i off co mo rng j hj
      obtain ⟨c, hstep⟩ := callStep_cases v pop i off co mo rng
      rw [callFrom_succ, hstep]
      dsimp only
      have hne : i ≠ j := by omega
      obtain ⟨h1, h2⟩ := ih (i + 1) (off ++ [{ c with fit_set := false }])
        (if v.actionAt rng 0 = VarAction.crossover then co.set i true else co)
        (if v.actionAt rng 0 = VarAction.mutation then mo.set i true else mo)
        (rng.advance (1 + (v.actionAt rng 0).draws)) j (by omega)
      rw [h1, h2]
      constructor
      · split_ifs with h
        · exact getD_set_ne co i j true false hne
        · rfl
      · split_ifs with h
        · exact getD_set_ne mo i j true false hne
        · rfl

theorem callFrom_flags (v : VarOr) (pop : List Chromosome) :
    ∀ (m i : ℕ) (off : List Chromosome) (co mo : List Bool) (rng : RNG),
      (∀ j, i ≤ j → co.getD j false = false) →
      (∀ j, i ≤ j → mo.getD j false = false) →
      i + m ≤ co.length → i + m ≤ mo.length →
      ∀ j, i ≤ j → j < i + m →
        ((v.callFrom pop m i off co mo rng).2.1.getD j false
            = decide (v.actionAt rng (j - i) = .crossover) ∧
         (v.callFrom pop m i off co mo rng).2.2.1.getD j false
            = decide (v.actionAt rng (j - i) = .mutation)) := by
  intro m
  induction m with
  | zero => intro i off co mo rng _ _ _ _ j h1 h2; omega
  | succ m ih =>
      intro i off co mo rng hco hmo hlco hlmo j hij hjm
      obtain ⟨c, hstep⟩ := callStep_cases v pop i off co mo rng
      rw [callFrom_succ, hstep]
      dsimp only
      rcases eq_or_lt_of_le hij with rfl | hlt
      · -- the slot written by this step; the recursive call leaves it alone
        obtain ⟨p1, p2⟩ := callFrom_preserve v pop m (i + 1)
          (off ++ [{ c with fit_set := false }])
          (if v.actionAt rng 0 = VarAction.crossover then co.set i true else co)
          (if v.actionAt rng 0 = VarAction.mutation then mo.set i true else mo)
          (rng.advance (1 + (v.actionAt rng 0).draws)) i (by omega)
        rw [p1, p2, Nat.sub_self]
        rcases hA : v.actionAt rng 0 with _ | _ | _
        · constructor
          · rw [if_neg (fun hh => VarAction.noConfusion hh), hco i le_rfl]
            rfl
          · rw [if_pos rfl, getD_set_self mo i true false (by omega)]
            rfl
        · constructor
          · rw [if_pos rfl, getD_set_self co i true false (by omega)]
            rfl
          · rw [if_neg (fun hh => VarAction.noConfusion hh), hmo i le_rfl]
            rfl
        · constructor
          · rw [if_neg (fun hh => VarAction.noConfusion hh), hco i le_rfl]
            rfl
          · rw [if_neg (fun hh => VarAction.noConfusion hh), hmo i le_rfl]
            rfl
      · -- a later slot, handled by the recursive call with the shifted trace
        have hco' : ∀ j', i + 1 ≤ j' →
            (if v.actionAt rng 0 = VarAction.crossover then co.set i true
              else co).getD j' false = false := by
          intro j' hj'
          split_ifs with h
          · rw [getD_set_ne co i j' true false (by omega)]
            exact hco j' (by omega)
          · exact hco j' (by omega)
        have hmo' : ∀ j', i + 1 ≤ j' →
            (if v.actionAt rng 0 = VarAction.mutation then mo.set i true
              else mo).getD j' false = false := by
          intro j' hj'
          split_ifs with h
          · rw [getD_set_ne mo i j' true false (by omega)]
            exact hmo j' (by omega)
          · exact hmo j' (by omega)
        have hlco' : i + 1 + m ≤ (if v.actionAt rng 0 = VarAction.crossover
            then co.set i true else co).length := by
          split_ifs with h
          · rw [List.length_set]
            omega
          · omega
        have hlmo' : i + 1 + m ≤ (if v.actionAt rng 0 = VarAction.mutation
            then mo.set i true else mo).length := by
          split_ifs with h
          · rw [List.length_set]
            omega
          · omega
        obtain ⟨h1, h2⟩ := ih (i + 1) (off ++ [{ c with fit_set := false }])
          (if v.actionAt rng 0 = VarAction.crossover then co.set i true else co)
          (if v.actionAt rng 0 = VarAction.mutation then mo.set i true else mo)
          (rng.advance (1 + (v.actionAt rng 0).draws)) hco' hmo' hlco' hlmo'
          j (by omega) (by omega)
        have hshift : v.actionAt (rng.advance (1 + (v.actionAt rng 0).draws))
            (j - (i + 1)) = v.actionAt rng (j - i) := by
          have hrw : j - i = (j - (i + 1)) + 1 := by omega
          rw [hrw, actionAt_zero, actionAt_advance]
        rw [h1, h2, hshift]
        exact ⟨rfl, rfl⟩

theorem varAction_not_not (a : VarAction) :
    (¬ a = .mutation ∧ ¬ a = .crossover) ↔ a = .replication := by
  cases a <;> simp

theorem call_flags (v : VarOr) (population : List Chromosome) (n : ℕ)
    (rng : RNG) (i : ℕ) (hi : i < n) :
    ((v.call population n rng).2.1.getD i false
        = decide (v.actionAt rng i = .crossover) ∧
     (v.call population n rng).2.2.1.getD i false
        = decide (v.actionAt rng i = .mutation)) := by
  have h := callFrom_flags v population n 0 []
    (List.replicate n false) (List.replicate n false) rng
    (fun j _ => getD_replicate n j false)
    (fun j _ => getD_replicate n j false)
    (by simp) (by simp) i (by omega) (by omega)
  rw [Nat.sub_zero] at h
  exact h

/-- Claim C1: `VarOr.__call__` (the `generate` operation) with
`number_offspring = n ≥ 0` produces exactly `n` offspring, and each slot's
path is chosen from that slot's single uniform draw `u` by partitioning the
unit interval: `u ≤ pm` selects mutation, `pm < u ≤ pm + pc` selects
crossover, and otherwise replication — the mutation comparison is made
before the crossover comparison, which fixes the tie-breaks at the
boundaries.  The path taken is read off the recorded flag arrays. -/
theorem varor_call_partition (v : VarOr) (population : List Chromosome)
    (n : ℕ) (rng : RNG) :
    ((v.call population n rng).1.length = n) ∧
    (∀ i, i < n →
      (((v.call population n rng).2.2.1.getD i false = true) ↔
        v.choiceAt rng i ≤ v.mutation_probability) ∧
      (((v.call population n rng).2.1.getD i false = true) ↔
        (v.mutation_probability < v.choiceAt rng i ∧
          v.choiceAt rng i ≤
            v.mutation_probability + v.crossover_probability)) ∧
      (((v.call population n rng).2.2.1.getD i false = false ∧
        (v.call population n rng).2.1.getD i false = false) ↔
        (¬ v.choiceAt rng i ≤ v.mutation_probability ∧
         ¬ v.choiceAt rng i ≤
            v.mutation_probability + v.crossover_probability))) := by
  constructor
  · rw [VarOr.call, callFrom_off_length]
    simp
  · intro i hi
    obtain ⟨hc, hm⟩ := call_flags v population n rng i hi
    refine ⟨?_, ?_, ?_⟩
    · rw [hm]
      simp only [decide_eq_true_eq]
      exact chooseAction_mutation_iff v (v.choiceAt rng i)
    · rw [hc]
      simp only [decide_eq_true_eq]
      exact chooseAction_crossover_iff v (v.choiceAt rng i)
    · rw [hm, hc]
      simp only [decide_eq_false_iff_not]
      rw [varAction_not_not]
      exact chooseAction_replication_iff v (v.choiceAt rng i)

/-- Witness for C1 at a concrete operator, population, count and stream. -/
theorem varor_call_partition_witness :
    ((witnessVarOr.call witnessPop 3 witnessRng).1.length = 3) ∧
    ((witnessVarOr.call witnessPop 3 witnessRng).2.2.1.getD 0 false = true ↔
      witnessVarOr.choiceAt witnessRng 0 ≤
        witnessVarOr.mutation_probability) :=
  ⟨(varor_call_partition witnessVarOr witnessPop 3 witnessRng).1,
   ((varor_call_partition witnessVarOr witnessPop 3 witnessRng).2 0
      (by norm_num)).1⟩

/-- Claim C3: every offspring returned by `VarOr.__call__` has its
fitness-set flag cleared, no matter which path produced it and no matter
the parents' flags. -/
theorem varor_offspring_fit_unset (v : VarOr) (population : List Chromosome)
    (n : ℕ) (rng : RNG) :
    ∀ c ∈ (v.call population n rng).1, c.fit_set = false := by
  intro c hc
  rw [VarOr.call] at hc
  rcases callFrom_fit v population n 0 [] (List.replicate n false)
    (List.replicate n false) rng c hc with h | h
  · exact absurd h (List.not_mem_nil c)
  · exact h

/-- Witness for C3: the first offspring of a concrete call. -/
theorem varor_offspring_fit_unset_witness :
    (⟨108, false⟩ : Chromosome).fit_set = false :=
  varor_offspring_fit_unset witnessVarOr witnessPop 3 witnessRng
    ⟨108, false⟩ (by
      norm_num [VarOr.call, VarOr.callFrom, VarOr.callStep, VarOr.chooseAction,
        RNG.rand, RNG.randint, VarOr.doMutation, VarOr.doCrossover,
        VarOr.doReplication, VarOr.getRandomParent,
        VarOr.appendNewIndividualToOffspring, Chromosome.copy, witnessVarOr,
        witnessPop, witnessRng, witnessMutation, witnessCrossover,
        List.replicate])

/-- Claim C4: after `VarOr.__call__` with `number_offspring = n`, the two
observable flag arrays `mutation_offspring` and `crossover_offspring` both
have length `n`; per slot the mutation flag marks exactly the mutation
path and the crossover flag exactly the crossover path, the two are never
simultaneously true, and both false means the slot was produced by
replication; with `n = 0` the offspring list and both flag arrays are
empty. -/
theorem varor_flag_arrays (v : VarOr) (population : List Chromosome)
    (n : ℕ) (rng : RNG) :
    ((v.call population n rng).2.1.length = n) ∧
    ((v.call population n rng).2.2.1.length = n) ∧
    (∀ i, i < n → ¬((v.call population n rng).2.2.1.getD i false = true ∧
                    (v.call population n rng).2.1.getD i false = true)) ∧
    (∀ i, i < n → (((v.call population n rng).2.2.1.getD i false = true) ↔
      v.actionAt rng i = .mutation)) ∧
    (∀ i, i < n → (((v.call population n rng).2.1.getD i false = true) ↔
      v.actionAt rng i = .crossover)) ∧
    (∀ i, i < n → (((v.call population n rng).2.2.1.getD i false = false ∧
      (v.call population n rng).2.1.getD i false = false) ↔
      v.actionAt rng i = .replication)) ∧
    (v.call population 0 rng = ([], [], [], rng)) := by
  have hlen := callFrom_flag_lengths v population n 0 []
    (List.replicate n false) (List.replicate n false) rng
  refine ⟨?_, ?_, ?_, ?_, ?_, ?_, rfl⟩
  · rw [VarOr.call, hlen.1, List.length_replicate]
  · rw [VarOr.call, hlen.2, List.length_replicate]
  · intro i hi
    obtain ⟨hc, hm⟩ := call_flags v population n rng i hi
    rw [hc, hm]
    simp only [decide_eq_true_eq]
    rintro ⟨h1, h2⟩
    rw [h1] at h2
    exact VarAction.noConfusion h2
  · intro i hi
    rw [(call_flags v population n rng i hi).2]
    simp only [decide_eq_true_eq]
  · intro i hi
    rw [(call_flags v population n rng i hi).1]
    simp only [decide_eq_true_eq]
  · intro i hi
    obtain ⟨hc, hm⟩ := call_flags v population n rng i hi
    rw [hc, hm]
    simp only [decide_eq_false_iff_not]
    exact varAction_not_not (v.actionAt rng i)

/-- Witness for C4 at a concrete operator, population, count and stream. -/
theorem varor_flag_arrays_witness :
    ((witnessVarOr.call witnessPop 3 witnessRng).2.1.length = 3) ∧
    ¬(((witnessVarOr.call witnessPop 3 witnessRng).2.2.1.getD 0 false = true) ∧
      ((witnessVarOr.call witnessPop 3 witnessRng).2.1.getD 0 false = true)) :=
  ⟨(varor_flag_arrays witnessVarOr witnessPop 3 witnessRng).1,
   (varor_flag_arrays witnessVarOr witnessPop 3 witnessRng).2.2.1 0
     (by norm_num)⟩

theorem probabilityInRange_iff (p : ℚ) :
    probabilityInRange p = true ↔ 0 ≤ p ∧ p ≤ 1 := by
  simp [probabilityInRange]

/-- Claim C2: `VarOr.__init__` first validates that `pc` and `pm` each lie
in `[0,1]`, then fails exactly when `pc + pm > 1`, producing no instance;
construction succeeds for every `pc, pm ∈ [0,1]` with `pc + pm ≤ 1`, and
the successful instance stores the probabilities together with the derived
replication probability. -/
theorem varor_init_validation
    (cx : Chromosome → Chromosome → Chromosome × Chromosome)
    (mu : Chromosome → Chromosome) (pc pm : ℚ) :
    (exceptOk (VarOr.init cx mu pc pm) = true ↔
      (0 ≤ pc ∧ pc ≤ 1 ∧ 0 ≤ pm ∧ pm ≤ 1 ∧ pc + pm ≤ 1)) ∧
    (¬(0 ≤ pc ∧ pc ≤ 1) →
      VarOr.init cx mu pc pm = .error crossoverProbErrMsg) ∧
    ((0 ≤ pc ∧ pc ≤ 1) → ¬(0 ≤ pm ∧ pm ≤ 1) →
      VarOr.init cx mu pc pm = .error mutationProbErrMsg) ∧
    ((0 ≤ pc ∧ pc ≤ 1) → (0 ≤ pm ∧ pm ≤ 1) → pc + pm > 1 →
      VarOr.init cx mu pc pm = .error sumProbErrMsg) ∧
    (∀ w, VarOr.init cx mu pc pm = .ok w →
      w.crossover_probability = pc ∧ w.mutation_probability = pm ∧
      w.replication_probability = 1 - pc - pm ∧
      w.crossover = cx ∧ w.mutation = mu) := by
  have hpc := probabilityInRange_iff pc
  have hpm := probabilityInRange_iff pm
  unfold VarOr.init
  split_ifs with h1 h2 h3
  · -- both in range, sum too large
    rw [hpc] at h1
    rw [hpm] at h2
    refine ⟨?_, ?_, ?_, ?_, ?_⟩
    · simp only [exceptOk, Bool.false_eq_true, false_iff]
      rintro ⟨_, _, _, _, hsum⟩
      exact absurd h3 (not_lt.mpr hsum)
    · intro hh
      exact absurd h1 hh
    · intro _ hh
      exact absurd h2 hh
    · intro _ _ _
      rfl
    · intro w hw
      simp at hw
  · -- success
    rw [hpc] at h1
    rw [hpm] at h2
    rw [not_lt] at h3
    refine ⟨?_, ?_, ?_, ?_, ?_⟩
    · simp only [exceptOk, eq_self_iff_true, true_iff]
      exact ⟨h1.1, h1.2, h2.1, h2.2, h3⟩
    · intro hh
      exact absurd h1 hh
    · intro _ hh
      exact absurd h2 hh
    · intro _ _ hh
      exact absurd hh (not_lt.mpr h3)
    · intro w hw
      rw [Except.ok.injEq] at hw
      rw [← hw]
      exact ⟨rfl, rfl, rfl, rfl, rfl⟩
  · -- pc in range, pm out of range
    rw [hpc] at h1
    rw [hpm] at h2
    refine ⟨?_, ?_, ?_, ?_, ?_⟩
    · simp only [exceptOk, Bool.false_eq_true, false_iff]
      rintro ⟨_, _, hpm0, hpm1, _⟩
      exact h2 ⟨hpm0, hpm1⟩
    · intro hh
      exact absurd h1 hh
    · intro _ _
      rfl
    · intro _ hh _
      exact absurd hh h2
    · intro w hw
      simp at hw
  · -- pc out of range
    rw [hpc] at h1
    refine ⟨?_, ?_, ?_, ?_, ?_⟩
    · simp only [exceptOk, Bool.false_eq_true, false_iff]
      rintro ⟨hpc0, hpc1, _⟩
      exact h1 ⟨hpc0, hpc1⟩
    · intro _
      rfl
    · intro hh _
      exact absurd hh h1
    · intro hh _ _
      exact absurd hh h1
    · intro w hw
      simp at hw

/-- Witness for C2: constructing with `pc = 0.7, pm = 0.5` fails on the
sum check. -/
theorem varor_init_validation_witness :
    VarOr.init witnessCrossover witnessMutation (7/10) (1/2)
      = .error sumProbErrMsg :=
  (varor_init_validation witnessCrossover witnessMutation (7/10)
    (1/2)).2.2.2.1 (by norm_num) (by norm_num) (by norm_num)

/-! ## Helper lemmas: AGraph -/

/-- Claim C10: `set_local_optimization_params` replaces the constant list
and nothing else — the command array, the stored fitness and the
fitness-set flag keep their previous values — whereas assigning the
command array through its setter or calling
`notify_command_array_modification` both reset the fitness state. -/
theorem agraph_set_params_frame (g : AGraph) (params : List ℚ)
    (cmds : List Command) :
    ((g.set_local_optimization_params params).constants = params) ∧
    ((g.set_local_optimization_params params).command_array
       = g.command_array) ∧
    ((g.set_local_optimization_params params).fitness = g.fitness) ∧
    ((g.set_local_optimization_params params).fit_set = g.fit_set) ∧
    ((g.set_command_array cmds).fitness = none) ∧
    ((g.set_command_array cmds).fit_set = false) ∧
    (g.notify_command_array_modification.fitness = none) ∧
    (g.notify_command_array_modification.fit_set = false) :=
  ⟨rfl, rfl, rfl, rfl, rfl, rfl, rfl, rfl⟩

/-- Claim C8: every backend failure in forward or derivative evaluation is
caught; the log records the method's error line, the program's full
rendered stack form and the underlying error text; the caller sees only
the single bare runtime-error value, which carries no detail (the error
type has exactly one value); on backend success the result is returned
unchanged. -/
theorem agraph_evaluate_error_handling (g : AGraph) (backend : ExecBackend)
    (x : List (List ℚ)) :
    (∀ r, backend.simplify_and_evaluate g.command_array x g.constants = .ok r →
      g.evaluate_equation_at backend x = ([], .ok r)) ∧
    (∀ ex, backend.simplify_and_evaluate g.command_array x g.constants
        = .error ex →
      g.evaluate_equation_at backend x =
        (["Error in stack evaluation", g.str, ex], .error .runtimeError)) ∧
    (∀ r, backend.simplify_and_evaluate_with_derivative g.command_array x
        g.constants true = .ok r →
      g.evaluate_equation_with_x_gradient_at backend x = ([], .ok r)) ∧
    (∀ ex, backend.simplify_and_evaluate_with_derivative g.command_array x
        g.constants true = .error ex →
      g.evaluate_equation_with_x_gradient_at backend x =
        (["Error in stack evaluation/deriv", g.str, ex],
          .error .runtimeError)) ∧
    (∀ r, backend.simplify_and_evaluate_with_derivative g.command_array x
        g.constants false = .ok r →
      g.evaluate_equation_with_local_opt_gradient_at backend x = ([], .ok r)) ∧
    (∀ ex, backend.simplify_and_evaluate_with_derivative g.command_array x
        g.constants false = .error ex →
      g.evaluate_equation_with_local_opt_gradient_at backend x =
        (["Error in stack evaluation/const-deriv", g.str, ex],
          .error .runtimeError)) ∧
    (∀ e1 e2 : EvalRuntimeError, e1 = e2) := by
  refine ⟨?_, ?_, ?_, ?_, ?_, ?_, ?_⟩
  · intro r h
    simp [AGraph.evaluate_equation_at, h]
  · intro ex h
    simp [AGraph.evaluate_equation_at, h, AGraph.raiseRuntimeError]
  · intro r h
    simp [AGraph.evaluate_equation_with_x_gradient_at, h]
  · intro ex h
    simp [AGraph.evaluate_equation_with_x_gradient_at, h,
      AGraph.raiseRuntimeError]
  · intro r h
    simp [AGraph.evaluate_equation_with_local_opt_gradient_at, h]
  · intro ex h
    simp [AGraph.evaluate_equation_with_local_opt_gradient_at, h,
      AGraph.raiseRuntimeError]
  · intro e1 e2
    cases e1
    cases e2
    rfl

/-- Witness for C8: a concrete graph with a failing backend. -/
theorem agraph_evaluate_error_handling_witness :
    witnessAGraph.evaluate_equation_at witnessBackendFail [] =
      (["Error in stack evaluation", witnessAGraph.str, "boom"],
        .error .runtimeError) :=
  (agraph_evaluate_error_handling witnessAGraph witnessBackendFail []).2.1
    "boom" rfl

theorem diffCount_nil : diffCount [] [] = 0 := rfl

theorem diffCount_cons (a b : Command) (cs1 cs2 : List Command) :
    diffCount (a :: cs1) (b :: cs2) =
      ((if a.node = b.node then 0 else 1) + (if a.p1 = b.p1 then 0 else 1) +
        (if a.p2 = b.p2 then 0 else 1)) + diffCount cs1 cs2 := by
  unfold diffCount
  rw [List.length_cons, Finset.sum_range_succ']
  simp only [List.getD_cons_succ, List.getD_cons_zero]
  exact Nat.add_comm _ _

theorem distance_list_eq_diffCount :
    ∀ (cs1 cs2 : List Command), cs1.length = cs2.length →
      ((cs1.zip cs2).map fun p =>
        (if p.1.node = p.2.node then 0 else 1) +
        (if p.1.p1 = p.2.p1 then 0 else 1) +
        (if p.1.p2 = p.2.p2 then 0 else 1)).sum = diffCount cs1 cs2 := by
  intro cs1
  induction cs1 with
  | nil =>
      intro cs2 h
      rw [(List.length_eq_zero.mp h.symm : cs2 = [])]
      rfl
  | cons a cs1 ih =>
      intro cs2 h
      rcases cs2 with _ | ⟨b, cs2⟩
      · simp at h
      · rw [List.zip_cons_cons, List.map_cons, List.sum_cons, diffCount_cons,
          ih cs2 (by simpa using h)]

theorem distance_self_list :
    ∀ cs : List Command,
      ((cs.zip cs).map fun p =>
        (if p.1.node = p.2.node then 0 else 1) +
        (if p.1.p1 = p.2.p1 then 0 else 1) +
        (if p.1.p2 = p.2.p2 then 0 else 1)).sum = 0 := by
  intro cs
  induction cs with
  | nil => rfl
  | cons a cs ih =>
      rw [List.zip_cons_cons, List.map_cons, List.sum_cons, ih,
        if_pos rfl, if_pos rfl, if_pos rfl]

/-- Claim C9: for equal-shape command arrays, `distance` counts the element
positions at which the two Nx3 instruction arrays differ; a program is at
distance 0 from an identical copy, and two programs differing in one
instruction's opcode are at distance at least 1.  (The different-shape case
is unguarded in the source and is outside this statement.) -/
theorem agraph_distance_spec (g h : AGraph) :
    (g.command_array.length = h.command_array.length →
      g.distance h = diffCount g.command_array h.command_array) ∧
    (g.distance g = 0) ∧
    (∀ i, g.command_array.length = h.command_array.length →
      i < g.command_array.length →
      (g.command_array.getD i cmdDefault).node ≠
        (h.command_array.getD i cmdDefault).node →
      1 ≤ g.distance h) := by
  refine ⟨?_, ?_, ?_⟩
  · intro hlen
    exact distance_list_eq_diffCount g.command_array h.command_array hlen
  · exact distance_self_list g.command_array
  · intro i hlen hi hne
    unfold AGraph.distance
    rw [distance_list_eq_diffCount g.command_array h.command_array hlen]
    have hmem : i ∈ Finset.range g.command_array.length :=
      Finset.mem_range.mpr hi
    have hb := Finset.single_le_sum
      (f := fun i =>
        (if (g.command_array.getD i cmdDefault).node
            = (h.command_array.getD i cmdDefault).node then 0 else 1) +
        (if (g.command_array.getD i cmdDefault).p1
            = (h.command_array.getD i cmdDefault).p1 then 0 else 1) +
        (if (g.command_array.getD i cmdDefault).p2
            = (h.command_array.getD i cmdDefault).p2 then 0 else 1))
      (fun j _ => Nat.zero_le _) hmem
    simp only at hb
    rw [if_neg hne] at hb
    unfold diffCount
    refine le_trans ?_ hb
    omega

/-- Witness for C9: two concrete graphs differing in the first row's
opcode. -/
theorem agraph_distance_spec_witness :
    1 ≤ witnessAGraph.distance witnessAGraphB :=
  (agraph_distance_spec witnessAGraph witnessAGraphB).2.2 0 rfl
    (by decide) (by decide)

theorem markUtilized_length (cmds : List Command) (util : List Bool) (i : ℕ) :
    (markUtilized cmds util i).length = util.length := by
  simp only [markUtilized]
  split_ifs <;> simp [List.length_set]

theorem foldl_markUtilized_length (cmds : List Command) :
    ∀ (l : List ℕ) (util : List Bool),
      (l.foldl (markUtilized cmds) util).length = util.length := by
  intro l
  induction l with
  | nil => intro util; rfl
  | cons a l ih =>
      intro util
      rw [List.foldl_cons, ih, markUtilized_length]

theorem get_utilized_commands_length (cmds : List Command) :
    (get_utilized_commands cmds).length = cmds.length := by
  unfold get_utilized_commands
  split_ifs with h
  · simp [h]
  · rw [foldl_markUtilized_length, List.length_set, List.length_replicate]

theorem zip_any_iff (f : Bool × Command → Bool) :
    ∀ (us : List Bool) (cs : List Command),
      ((us.zip cs).any f = true ↔
        ∃ i, i < us.length ∧ i < cs.length ∧
          f (us.getD i false, cs.getD i cmdDefault) = true) := by
  intro us
  induction us with
  | nil =>
      intro cs
      simp
  | cons u us ih =>
      intro cs
      rcases cs with _ | ⟨c, cs⟩
      · simp
      · rw [List.zip_cons_cons, List.any_cons]
        simp only [List.length_cons]
        constructor
        · intro h
          simp only [Bool.or_eq_true] at h
          rcases h with h1 | h2
          · exact ⟨0, Nat.succ_pos _, Nat.succ_pos _, h1⟩
          · obtain ⟨i, hi1, hi2, hf⟩ := (ih cs).mp h2
            exact ⟨i + 1, by omega, by omega, hf⟩
        · rintro ⟨i, hi1, hi2, hf⟩
          simp only [Bool.or_eq_true]
          rcases i with _ | i
          · exact .inl hf
          · exact .inr ((ih cs).mpr ⟨i, by omega, by omega, hf⟩)

/-- Claim C7: `needs_local_optimization` is true iff some command is
marked utilized, is a constant-load (`node = 1`), and has `param1` equal
to `-1` or at least the length of the current constant list; in
particular it is false when no such utilized command exists. -/
theorem agraph_needs_local_opt_iff (g : AGraph) :
    g.needs_local_optimization = true ↔
      ∃ i, i < g.command_array.length ∧
        (get_utilized_commands g.command_array).getD i false = true ∧
        (g.command_array.getD i cmdDefault).node = 1 ∧
        ((g.command_array.getD i cmdDefault).p1 = -1 ∨
          (g.constants.length : ℤ) ≤ (g.command_array.getD i cmdDefault).p1)
    := by
  unfold AGraph.needs_local_optimization
  rw [zip_any_iff]
  constructor
  · rintro ⟨i, hi1, hi2, hf⟩
    refine ⟨i, hi2, ?_⟩
    simp only [Bool.and_eq_true, Bool.or_eq_true, beq_iff_eq,
      decide_eq_true_eq] at hf
    exact ⟨hf.1.1, hf.1.2, hf.2⟩
  · rintro ⟨i, hi, hu, hn, hp⟩
    have hlen := get_utilized_commands_length g.command_array
    refine ⟨i, by omega, hi, ?_⟩
    simp only [Bool.and_eq_true, Bool.or_eq_true, beq_iff_eq,
      decide_eq_true_eq]
    exact ⟨⟨hu, hn⟩, hp⟩

/-- Witness for C7: row 2 of the concrete graph is a utilized
constant-load with out-of-range `param1`. -/
theorem agraph_needs_local_opt_iff_witness :
    witnessAGraph.needs_local_optimization = true :=
  (agraph_needs_local_opt_iff witnessAGraph).mpr
    ⟨2, by decide, by decide, by decide, Or.inr (by decide)⟩

theorem renumberConsts_nil_cs (us : List Bool) (k : ℕ) :
    renumberConsts us [] k = ([], k) := by
  cases us <;> rfl

theorem renumberConsts_nil_us (cs : List Command) (k : ℕ) :
    renumberConsts [] cs k = (cs, k) := by
  cases cs <;> rfl

theorem renumberConsts_cons_pos (u : Bool) (c : Command) (us : List Bool)
    (cs : List Command) (k : ℕ) (h : (u && c.node == 1) = true) :
    renumberConsts (u :: us) (c :: cs) k =
      ((⟨1, (k : ℤ), (k : ℤ)⟩ : Command) ::
          (renumberConsts us cs (k + 1)).1,
        (renumberConsts us cs (k + 1)).2) := by
  rw [renumberConsts, if_pos h]

theorem renumberConsts_cons_neg (u : Bool) (c : Command) (us : List Bool)
    (cs : List Command) (k : ℕ) (h : ¬ (u && c.node == 1) = true) :
    renumberConsts (u :: us) (c :: cs) k =
      (c :: (renumberConsts us cs k).1, (renumberConsts us cs k).2) := by
  rw [renumberConsts, if_neg h]

theorem renumberConsts_length :
    ∀ (cs : List Command) (us : List Bool) (k : ℕ),
      (renumberConsts us cs k).1.length = cs.length := by
  intro cs
  induction cs with
  | nil =>
      intro us k
      rw [renumberConsts_nil_cs]
  | cons c cs ih =>
      intro us k
      rcases us with _ | ⟨u, us⟩
      · rw [renumberConsts_nil_us]
      · by_cases h : (u && c.node == 1) = true
        · rw [renumberConsts_cons_pos u c us cs k h]
          simp only [List.length_cons, ih]
        · rw [renumberConsts_cons_neg u c us cs k h]
          simp only [List.length_cons, ih]

theorem renumberConsts_count :
    ∀ (cs : List Command) (us : List Bool) (k : ℕ),
      (renumberConsts us cs k).2 = k + numUtilConstLoads us cs := by
  intro cs
  induction cs with
  | nil =>
      intro us k
      rw [renumberConsts_nil_cs]
      cases us <;> simp [numUtilConstLoads]
  | cons c cs ih =>
      intro us k
      rcases us with _ | ⟨u, us⟩
      · rw [renumberConsts_nil_us]
        simp [numUtilConstLoads]
      · by_cases h : (u && c.node == 1) = true
        · rw [renumberConsts_cons_pos u c us cs k h, ih]
          simp only [numUtilConstLoads]
          rw [if_pos h]
          omega
        · rw [renumberConsts_cons_neg u c us cs k h, ih]
          simp only [numUtilConstLoads]
          rw [if_neg h]
          omega

theorem renumberConsts_getD :
    ∀ (cs : List Command) (us : List Bool) (k i : ℕ),
      (renumberConsts us cs k).1.getD i cmdDefault =
        if us.getD i false && (cs.getD i cmdDefault).node == 1
        then ⟨1, ((k + constRank us cs i : ℕ) : ℤ),
                 ((k + constRank us cs i : ℕ) : ℤ)⟩
        else cs.getD i cmdDefault := by
  intro cs
  induction cs with
  | nil =>
      intro us k i
      rw [renumberConsts_nil_cs]
      simp [cmdDefault]
  | cons c cs ih =>
      intro us k i
      rcases us with _ | ⟨u, us⟩
      · rw [renumberConsts_nil_us]
        simp
      · by_cases h : (u && c.node == 1) = true
        · rw [renumberConsts_cons_pos u c us cs k h]
          rcases i with _ | i
          · simp only [List.getD_cons_zero]
            rw [if_pos h]
            simp [constRank]
          · simp only [List.getD_cons_succ]
            rw [ih us (k + 1) i]
            have hrank : constRank (u :: us) (c :: cs) (i + 1)
                = 1 + constRank us cs i := by
              simp [constRank, h]
            rw [hrank]
            by_cases h2 : (us.getD i false
                && (cs.getD i cmdDefault).node == 1) = true
            · rw [if_pos h2, if_pos h2]
              have harith : k + 1 + constRank us cs i
                  = k + (1 + constRank us cs i) := by omega
              rw [harith]
            · rw [if_neg h2, if_neg h2]
        · rw [renumberConsts_cons_neg u c us cs k h]
          rcases i with _ | i
          · simp only [List.getD_cons_zero]
            rw [if_neg h]
          · simp only [List.getD_cons_succ]
            rw [ih us k i]
            have hrank : constRank (u :: us) (c :: cs) (i + 1)
                = constRank us cs i := by
              simp [constRank, h]
            rw [hrank]

theorem get_num_params_eq (g : AGraph) :
    g.get_number_local_optimization_params =
      ((renumberConsts (get_utilized_commands g.command_array)
          g.command_array 0).2,
       { g with command_array :=
          (renumberConsts (get_utilized_commands g.command_array)
            g.command_array 0).1 }) := by
  rw [AGraph.get_number_local_optimization_params]

/-- Claim C5: `get_number_local_optimization_params` scans commands in
index order, rewrites every utilized constant-load to `(1, k, k)` where
`k` is its zero-based rank among utilized constant-loads, returns the
total count of utilized constant-loads, and leaves every other command
unchanged. -/
theorem agraph_const_binding_spec (g : AGraph) :
    ((g.get_number_local_optimization_params).1 =
      numUtilConstLoads (get_utilized_commands g.command_array)
        g.command_array) ∧
    ((g.get_number_local_optimization_params).2.command_array.length =
      g.command_array.length) ∧
    (∀ i, (get_utilized_commands g.command_array).getD i false = true →
      (g.command_array.getD i cmdDefault).node = 1 →
      (g.get_number_local_optimization_params).2.command_array.getD i
          cmdDefault =
        ⟨1, (constRank (get_utilized_commands g.command_array)
              g.command_array i : ℤ),
            (constRank (get_utilized_commands g.command_array)
              g.command_array i : ℤ)⟩) ∧
    (∀ i, ¬((get_utilized_commands g.command_array).getD i false = true ∧
        (g.command_array.getD i cmdDefault).node = 1) →
      (g.get_number_local_optimization_params).2.command_array.getD i
          cmdDefault = g.command_array.getD i cmdDefault) := by
  rw [get_num_params_eq]
  dsimp only
  refine ⟨?_, ?_, ?_, ?_⟩
  · rw [renumberConsts_count]
    omega
  · exact renumberConsts_length g.command_array
      (get_utilized_commands g.command_array) 0
  · intro i hu hn
    rw [renumberConsts_getD]
    rw [if_pos (by
      simp only [Bool.and_eq_true, beq_iff_eq]
      exact ⟨hu, hn⟩)]
    simp
  · intro i hni
    rw [renumberConsts_getD]
    rw [if_neg ?_]
    simp only [Bool.and_eq_true, beq_iff_eq]
    intro hcontra
    exact hni ⟨hcontra.1, hcontra.2⟩

/-- Witness for C5: row 2 of the concrete graph is the first utilized
constant-load and is rewritten to `(1, 0, 0)`. -/
theorem agraph_const_binding_spec_witness :
    (witnessAGraph.get_number_local_optimization_params).2.command_array.getD
        2 cmdDefault =
      ⟨1, (constRank (get_utilized_commands witnessAGraph.command_array)
            witnessAGraph.command_array 2 : ℤ),
          (constRank (get_utilized_commands witnessAGraph.command_array)
            witnessAGraph.command_array 2 : ℤ)⟩ :=
  (agraph_const_binding_spec witnessAGraph).2.2.1 2 (by decide) (by decide)

theorem markUtilized_congr (cs cs' : List Command)
    (hnode : ∀ j, (cs'.getD j cmdDefault).node = (cs.getD j cmdDefault).node)
    (hop : ∀ j, IS_TERMINAL_MAP (cs.getD j cmdDefault).node = false →
      cs'.getD j cmdDefault = cs.getD j cmdDefault)
    (util : List Bool) (i : ℕ) :
    markUtilized cs' util i = markUtilized cs util i := by
  simp only [markUtilized]
  by_cases h : util.getD i false = true
  · rw [if_pos h, if_pos h]
    by_cases ht : IS_TERMINAL_MAP ((cs.getD i cmdDefault)).node = true
    · rw [hnode i, if_pos ht, if_pos ht]
    · have hf : IS_TERMINAL_MAP (cs.getD i cmdDefault).node = false := by
        revert ht
        cases IS_TERMINAL_MAP (cs.getD i cmdDefault).node <;> simp
      rw [hop i hf]
  · rw [if_neg h, if_neg h]

theorem get_utilized_congr (cs cs' : List Command)
    (hlen : cs'.length = cs.length)
    (hnode : ∀ j, (cs'.getD j cmdDefault).node = (cs.getD j cmdDefault).node)
    (hop : ∀ j, IS_TERMINAL_MAP (cs.getD j cmdDefault).node = false →
      cs'.getD j cmdDefault = cs.getD j cmdDefault) :
    get_utilized_commands cs' = get_utilized_commands cs := by
  unfold get_utilized_commands
  rw [hlen]
  have hmark : markUtilized cs' = markUtilized cs :=
    funext fun util => funext fun i => markUtilized_congr cs cs' hnode hop util i
  rw [hmark]

theorem renumberConsts_idem :
    ∀ (cs : List Command) (us : List Bool) (k : ℕ),
      renumberConsts us (renumberConsts us cs k).1 k
        = renumberConsts us cs k := by
  intro cs
  induction cs with
  | nil =>
      intro us k
      rw [renumberConsts_nil_cs]
      rw [renumberConsts_nil_cs]
  | cons c cs ih =>
      intro us k
      rcases us with _ | ⟨u, us⟩
      · rw [renumberConsts_nil_us, renumberConsts_nil_us]
      · by_cases h : (u && c.node == 1) = true
        · have h2 := h
          rw [Bool.and_eq_true] at h2
          rw [renumberConsts_cons_pos u c us cs k h]
          have h' : (u && (⟨1, (k : ℤ), (k : ℤ)⟩ : Command).node == 1)
              = true := by
            rw [Bool.and_eq_true]
            exact ⟨h2.1, rfl⟩
          rw [renumberConsts_cons_pos u _ us _ k h']
          rw [ih us (k + 1)]
        · rw [renumberConsts_cons_neg u c us cs k h]
          rw [renumberConsts_cons_neg u c us (renumberConsts us cs k).1 k h]
          rw [ih us k]

theorem renumbered_liveness_stable (g : AGraph) :
    get_utilized_commands
        (renumberConsts (get_utilized_commands g.command_array)
          g.command_array 0).1
      = get_utilized_commands g.command_array := by
  apply get_utilized_congr
  · exact renumberConsts_length g.command_array
      (get_utilized_commands g.command_array) 0
  · intro j
    rw [renumberConsts_getD]
    by_cases hc : ((get_utilized_commands g.command_array).getD j false
        && (g.command_array.getD j cmdDefault).node == 1) = true
    · rw [if_pos hc]
      rw [Bool.and_eq_true, beq_iff_eq] at hc
      exact hc.2.symm
    · rw [if_neg hc]
  · intro j hterm
    rw [renumberConsts_getD]
    by_cases hc : ((get_utilized_commands g.command_array).getD j false
        && (g.command_array.getD j cmdDefault).node == 1) = true
    · rw [Bool.and_eq_true, beq_iff_eq] at hc
      rw [hc.2] at hterm
      simp [IS_TERMINAL_MAP] at hterm
    · rw [if_neg hc]

/-- Claim C6: `get_number_local_optimization_params` is idempotent — the
liveness vector is unchanged by the renumbering (only terminal
constant-load rows are rewritten), so a second call returns the same
count and reassigns exactly the same dense slot indices, leaving the
command array identical. -/
theorem agraph_const_binding_idem (g : AGraph) :
    (((g.get_number_local_optimization_params).2.get_number_local_optimization_params).1
        = (g.get_number_local_optimization_params).1) ∧
    (((g.get_number_local_optimization_params).2.get_number_local_optimization_params).2.command_array
        = (g.get_number_local_optimization_params).2.command_array) := by
  rw [get_num_params_eq g]
  dsimp only
  rw [get_num_params_eq]
  dsimp only
  rw [renumbered_liveness_stable, renumberConsts_idem]
  exact ⟨rfl, rfl⟩
